import Mathlib

/-!
# Verification of the OREKA KPI engine (`kpi_calculations.py`)

Shallow embedding of the KPI aggregation functions of the repository.
Python `Decimal` values are modelled as exact rationals (`ℚ`); the engine
only adds, subtracts, multiplies and divides decimals and quantizes with
`ROUND_HALF_UP` at 2, 4 or 1 fractional digits, which we model explicitly.
Python dicts are modelled as association lists (`List (String × ℚ)`) with
first-match lookup; `defaultdict(Decimal)` update `d[k] += v` is `dadd`.
A Python function that can raise `ValueError` is modelled in `Except String`.
-/

namespace Oreka

/-- Rounding `ROUND_HALF_UP` to an integer: nearest integer, ties away from zero
(the rounding mode used by `quantize(..., rounding=ROUND_HALF_UP)`). -/
def rhu (x : ℚ) : ℤ :=
  if 0 ≤ x then ⌊x + 1/2⌋ else -⌊-x + 1/2⌋

/-- Model of `Decimal.quantize` to `d` fractional digits with `ROUND_HALF_UP`. -/
def quantize (d : ℕ) (x : ℚ) : ℚ :=
  (rhu (x * 10 ^ d) : ℚ) / 10 ^ d

/-- Currency rounding `_q2`, 2 fractional digits, half-up (source line 14). -/
def q2 (x : ℚ) : ℚ := quantize 2 x

/-- Ratio rounding `_q4`, 4 fractional digits, half-up (source line 18). -/
def q4 (x : ℚ) : ℚ := quantize 4 x

/-- Python dict over string keys with `Decimal` values. -/
abbrev Dict := List (String × ℚ)

/-- Dict lookup `d.get(a)`: first-match lookup (Python dicts have unique keys, so
first-match agrees with dict semantics). -/
def dlookup (d : Dict) (a : String) : Option ℚ :=
  match d with
  | [] => none
  | (k, v) :: rest => if k = a then some v else dlookup rest a

/-- Dict lookup with default, `d.get(a, Decimal("0"))`. -/
def dget (d : Dict) (a : String) : ℚ := (dlookup d a).getD 0

/-- Key set membership: `a in d`. -/
def dmem (d : Dict) (a : String) : Prop := a ∈ d.map Prod.fst

instance (d : Dict) (a : String) : Decidable (dmem d a) := by
  unfold dmem; infer_instance

/-- Additive dict update `d[k] = d.get(k, 0) + v` — the update a `defaultdict(Decimal)` performs
on `d[k] += v`, and also the update `out[k] = out.get(k, Decimal("0")) + v`
of `add_sales_invoices`: replace the value of an existing key, else append
the key with value `0 + v`. -/
def dadd (d : Dict) (k : String) (v : ℚ) : Dict :=
  match d with
  | [] => [(k, v)]
  | (k', v') :: rest => if k' = k then (k', v' + v) :: rest else (k', v') :: dadd rest k v

/-- Sum of the values of a dict (`sum(d.values())`). -/
def vsum (d : Dict) : ℚ := (d.map Prod.snd).sum

/-! ## Record model (`models.py`)

Only the fields the KPI engine reads are given arithmetic content; the
`Literal` enumerations are kept as `String`s.  The pydantic validations
(`quantity ≥ 1`, non-negative amounts) are expressed as predicates and
assumed where a claim needs them. -/

/-- Record `POSLine` (models.py): one sold item on one receipt. -/
structure POSLine where
  item_type : String
  item_name : String
  quantity : ℕ
  price_per_item : ℚ
  total_price : ℚ
  payment_method : String
  area : String
  receipt_id : String

/-- The pydantic field constraints on a `POSLine`: `quantity ≥ 1`,
`price_per_item ≥ 0`, `total_price ≥ 0`. -/
def POSLine.valid (l : POSLine) : Prop :=
  1 ≤ l.quantity ∧ 0 ≤ l.price_per_item ∧ 0 ≤ l.total_price

/-- Record `SalesInvoice` (models.py): non-POS revenue attributed to an area. -/
structure SalesInvoice where
  amount : ℚ
  area : String

/-- Record `PurchaseInvoice` (models.py): `area = none` means the cost is
undirected. -/
structure PurchaseInvoice where
  amount : ℚ
  category : String
  area : Option String

/-! ## `kpi_pos_only` (source lines 22–59) -/

/-- The loop state of `kpi_pos_only`: the accumulators initialised at
source lines 25–30. -/
structure PosState where
  rev_total : ℚ
  by_area : Dict
  by_payment : Dict
  receipts : List String
  discount_numer : ℚ
  discount_denom : ℚ

/-- Initial accumulators of `kpi_pos_only` (source lines 25–30). -/
def PosState.init : PosState :=
  { rev_total := 0, by_area := [], by_payment := [], receipts := [],
    discount_numer := 0, discount_denom := 0 }

/-- Set insertion `receipts.add(r)` on the `set` of receipt ids: insert if absent. -/
def sinsert (s : List String) (r : String) : List String :=
  if r ∈ s then s else r :: s

/-- One iteration of the `for l in pos` loop of `kpi_pos_only`
(source lines 34–47). `tp` is `Decimal(str(l.total_price))`, which is the
exact value of `l.total_price`. -/
def posStep (has_prices : Bool) (price_list : Dict) (st : PosState) (l : POSLine) :
    PosState :=
  let tp := l.total_price
  let st :=
    { st with
      rev_total := st.rev_total + tp
      by_area := dadd st.by_area l.area tp
      by_payment := dadd st.by_payment l.payment_method tp
      receipts := sinsert st.receipts l.receipt_id }
  if has_prices then
    match dlookup price_list l.item_name with
    | some theo =>
        let actual := tp / (l.quantity : ℚ)
        { st with
          discount_numer :=
            if actual < theo then
              st.discount_numer + (theo - actual) * (l.quantity : ℚ)
            else st.discount_numer
          discount_denom := st.discount_denom + theo * (l.quantity : ℚ) }
    | none => st
  else st

/-- Truthiness test `has_prices = bool(price_list)` (source line 32): `None` and the empty
dict are both falsy. -/
def hasPrices (price_list : Option Dict) : Bool :=
  match price_list with
  | none => false
  | some d => !d.isEmpty

/-- The result dict of `kpi_pos_only` (source lines 52–59). -/
structure KpiResult where
  revenue_total : ℚ
  revenue_by_area : Dict
  revenue_by_payment : Dict
  receipt_count : ℕ
  average_receipt : ℚ
  discount_rate : Option ℚ

/-- Function `kpi_pos_only` (source lines 22–59): single pass over the POS lines,
then the guarded average and discount rate and the rounded outputs. -/
def kpi_pos_only (pos : List POSLine) (price_list : Option Dict) : KpiResult :=
  let pl := price_list.getD []
  let st := pos.foldl (posStep (hasPrices price_list) pl) PosState.init
  let avg_receipt := st.rev_total / (max st.receipts.length 1 : ℚ)
  { revenue_total := q2 st.rev_total
    revenue_by_area := st.by_area.map (fun kv => (kv.1, q2 kv.2))
    revenue_by_payment := st.by_payment.map (fun kv => (kv.1, q2 kv.2))
    receipt_count := st.receipts.length
    average_receipt := q2 avg_receipt
    discount_rate :=
      if 0 < st.discount_denom then some (q4 (st.discount_numer / st.discount_denom))
      else none }

/-! ## `add_sales_invoices` (source lines 62–69) -/

/-- Function `add_sales_invoices`: copy the revenue mapping and add each invoice
amount to its area (`out[si.area] = out.get(si.area, Decimal("0")) + amount`).
The source copies the input dict first (line 66), so the input mapping is
not mutated; the model is pure, so this holds by construction. -/
def add_sales_invoices (revenue_by_area : Dict) (sales_inv : List SalesInvoice) :
    Dict :=
  sales_inv.foldl (fun out si => dadd out si.area si.amount) revenue_by_area

/-! ## `_normalized_weights` and `compute_cogs` (source lines 72–103) -/

/-- Function `_normalized_weights` (source lines 72–82): keep the strictly positive
weights, divide each by their sum; raise `ValueError` when the sum is not
positive (in particular when the mapping is empty or all-non-positive). -/
def configErrorMsg : String :=
  "alloc_basis must contain at least one positive weight"

def normalized_weights (alloc_basis : Dict) : Except String Dict :=
  let clean := alloc_basis.filter (fun kv => 0 < kv.2)
  let total := vsum clean
  if total ≤ 0 then
    Except.error configErrorMsg
  else
    Except.ok (clean.map (fun kv => (kv.1, kv.2 / total)))

/-- The loop of `compute_cogs` (source lines 91–96): area-tagged amounts go
to that area's bucket, untagged amounts to the undirected pool. -/
def cogsFold (purch : List PurchaseInvoice) : Dict × ℚ :=
  purch.foldl
    (fun acc p =>
      match p.area with
      | some a => (dadd acc.1 a p.amount, acc.2)
      | none => (acc.1, acc.2 + p.amount))
    ([], 0)

/-- Truthiness test `bool(alloc_basis)` in `if undirected > 0 and alloc_basis:`
(source line 98): `None` and the empty dict are both falsy. -/
def allocTruthy (alloc_basis : Option Dict) : Bool :=
  match alloc_basis with
  | none => false
  | some d => !d.isEmpty

/-- Function `compute_cogs` (source lines 85–103): per-area sums of tagged amounts;
when the undirected pool is positive and a truthy allocation basis is
given, distribute the pool by the normalized weights (which may raise a
configuration error). -/
def compute_cogs (purch : List PurchaseInvoice) (alloc_basis : Option Dict) :
    Except String Dict :=
  let st := cogsFold purch
  let cogs_area := st.1
  let undirected := st.2
  if 0 < undirected ∧ allocTruthy alloc_basis then
    match normalized_weights (alloc_basis.getD []) with
    | Except.error e => Except.error e
    | Except.ok weights =>
        Except.ok (weights.foldl (fun d kw => dadd d kw.1 (undirected * kw.2)) cogs_area)
  else
    Except.ok cogs_area

/-! ## Margin and derived ratios (source lines 106–139) -/

/-- Function `gross_margin_by_area` (source lines 106–113): for the union of the key
sets, `q2 (revenue − COGS)` with a missing side read as `0`. -/
def gross_margin_by_area (rev_by_area cogs_by_area : Dict) : Dict :=
  ((rev_by_area.map Prod.fst ++ cogs_by_area.map Prod.fst).dedup).map
    (fun a => (a, q2 (dget rev_by_area a - dget cogs_by_area a)))

/-- Function `operating_margin_total` (source lines 116–119). -/
def operating_margin_total (gross_total labor fixed other : ℚ) : ℚ :=
  q2 (gross_total - labor - fixed - other)

/-- Function `roi_monthly` (source lines 122–123): `None` unless `capital_value > 0`. -/
def roi_monthly (operating_profit capital_value : ℚ) : Option ℚ :=
  if 0 < capital_value then some (q4 (operating_profit / capital_value)) else none

/-- Function `inventory_turnover` (source lines 126–127): `None` unless `avg_stock > 0`. -/
def inventory_turnover (cogs_total avg_stock : ℚ) : Option ℚ :=
  if 0 < avg_stock then some (q4 (cogs_total / avg_stock)) else none

/-- Function `inventory_coverage_days` (source lines 130–139): quantized to one
fractional digit, `None` unless `avg_daily_consumption > 0`. -/
def inventory_coverage_days (stock_value avg_daily_consumption : ℚ) : Option ℚ :=
  if 0 < avg_daily_consumption then
    some (quantize 1 (stock_value / avg_daily_consumption))
  else none

/-! ## Basic lemmas on the dict model -/

theorem dlookup_eq_none_iff (d : Dict) (a : String) :
    dlookup d a = none ↔ ¬ dmem d a := by
  induction d with
  | nil => simp [dlookup, dmem]
  | cons kv rest ih =>
      obtain ⟨k, v⟩ := kv
      by_cases h : k = a
      · simp [dlookup, dmem, h]
      · have h' : ¬ a = k := fun hh => h hh.symm
        simp [dlookup, dmem, h, h'] at ih ⊢
        exact ih

theorem dlookup_mem {d : Dict} {a : String} {v : ℚ} (h : dlookup d a = some v) :
    (a, v) ∈ d := by
  induction d with
  | nil => simp [dlookup] at h
  | cons kv rest ih =>
      obtain ⟨k, w⟩ := kv
      by_cases hk : k = a
      · simp [dlookup, hk] at h
        simp [hk, h]
      · simp [dlookup, hk] at h
        exact List.mem_cons_of_mem _ (ih h)

theorem dget_dadd (d : Dict) (k : String) (v : ℚ) (a : String) :
    dget (dadd d k v) a = dget d a + if k = a then v else 0 := by
  induction d with
  | nil =>
      by_cases h : k = a <;> simp [dadd, dget, dlookup, h]
  | cons kv rest ih =>
      obtain ⟨k', v'⟩ := kv
      by_cases hk : k' = k
      · subst hk
        by_cases ha : k' = a <;> simp [dadd, dget, dlookup, ha]
      · have hdadd : dadd ((k', v') :: rest) k v = (k', v') :: dadd rest k v := by
          simp [dadd, hk]
        by_cases ha : k' = a
        · subst ha
          have hka : ¬ k = k' := fun h => hk h.symm
          rw [hdadd]
          simp [dget, dlookup, hka]
        · rw [hdadd]
          simp only [dget, dlookup, if_neg ha]
          exact ih

theorem dmem_dadd (d : Dict) (k : String) (v : ℚ) (a : String) :
    dmem (dadd d k v) a ↔ dmem d a ∨ a = k := by
  induction d with
  | nil =>
      constructor
      · intro h; simp [dadd, dmem] at h; tauto
      · intro h; simp [dmem] at h ⊢; simp [dadd]; tauto
  | cons kv rest ih =>
      obtain ⟨k', v'⟩ := kv
      by_cases hk : k' = k <;> simp [dadd, dmem, hk] at * <;> tauto

theorem vsum_dadd (d : Dict) (k : String) (v : ℚ) :
    vsum (dadd d k v) = vsum d + v := by
  induction d with
  | nil => simp [dadd, vsum]
  | cons kv rest ih =>
      obtain ⟨k', v'⟩ := kv
      by_cases hk : k' = k
      · simp [dadd, vsum, hk]; ring
      · simp [dadd, vsum, hk] at ih ⊢; rw [ih]; ring

theorem dlookup_map (f : ℚ → ℚ) (d : Dict) (a : String) :
    dlookup (d.map fun kv => (kv.1, f kv.2)) a = (dlookup d a).map f := by
  induction d with
  | nil => simp [dlookup]
  | cons kv rest ih =>
      obtain ⟨k, v⟩ := kv
      by_cases h : k = a <;> simp [dlookup, h, ih]

/-! ## Generic characterizations of `defaultdict` accumulation loops -/

theorem foldl_dadd_dget {α : Type} (key : α → String) (val : α → ℚ)
    (xs : List α) (d : Dict) (a : String) :
    dget (xs.foldl (fun acc x => dadd acc (key x) (val x)) d) a
      = dget d a + ((xs.filter (fun x => key x = a)).map val).sum := by
  induction xs generalizing d with
  | nil => simp
  | cons x xs ih =>
      simp only [List.foldl_cons, ih, dget_dadd, List.filter_cons]
      by_cases h : key x = a
      · simp [h]; ring
      · simp [h]

theorem foldl_dadd_dmem {α : Type} (key : α → String) (val : α → ℚ)
    (xs : List α) (d : Dict) (a : String) :
    dmem (xs.foldl (fun acc x => dadd acc (key x) (val x)) d) a
      ↔ dmem d a ∨ a ∈ xs.map key := by
  induction xs generalizing d with
  | nil => simp
  | cons x xs ih =>
      simp only [List.foldl_cons, ih, dmem_dadd, List.map_cons, List.mem_cons]
      tauto

theorem foldl_dadd_vsum {α : Type} (key : α → String) (val : α → ℚ)
    (xs : List α) (d : Dict) :
    vsum (xs.foldl (fun acc x => dadd acc (key x) (val x)) d)
      = vsum d + (xs.map val).sum := by
  induction xs generalizing d with
  | nil => simp
  | cons x xs ih => simp [List.foldl_cons, ih, vsum_dadd]; ring

/-! ## Characterizing the `kpi_pos_only` loop -/

/-- The discount-denominator contribution of one POS line: `theo * quantity`
when the item is in the price list, else nothing. -/
def lineDenom (pl : Dict) (l : POSLine) : ℚ :=
  match dlookup pl l.item_name with
  | some theo => theo * (l.quantity : ℚ)
  | none => 0

/-- The discount-numerator contribution of one POS line:
`(theo - actual) * quantity` when the item is in the price list and its
theoretical price exceeds the actual unit price. -/
def lineNumer (pl : Dict) (l : POSLine) : ℚ :=
  match dlookup pl l.item_name with
  | some theo =>
      if l.total_price / (l.quantity : ℚ) < theo then
        (theo - l.total_price / (l.quantity : ℚ)) * (l.quantity : ℚ)
      else 0
  | none => 0

theorem posStep_rev_total (hp : Bool) (pl : Dict) (st : PosState) (l : POSLine) :
    (posStep hp pl st l).rev_total = st.rev_total + l.total_price := by
  cases hp <;> unfold posStep <;> cases dlookup pl l.item_name <;> rfl

theorem posStep_by_area (hp : Bool) (pl : Dict) (st : PosState) (l : POSLine) :
    (posStep hp pl st l).by_area = dadd st.by_area l.area l.total_price := by
  cases hp <;> unfold posStep <;> cases dlookup pl l.item_name <;> rfl

theorem posStep_by_payment (hp : Bool) (pl : Dict) (st : PosState) (l : POSLine) :
    (posStep hp pl st l).by_payment = dadd st.by_payment l.payment_method l.total_price := by
  cases hp <;> unfold posStep <;> cases dlookup pl l.item_name <;> rfl

theorem posStep_receipts (hp : Bool) (pl : Dict) (st : PosState) (l : POSLine) :
    (posStep hp pl st l).receipts = sinsert st.receipts l.receipt_id := by
  cases hp <;> unfold posStep <;> cases dlookup pl l.item_name <;> rfl

theorem posStep_denom_true (pl : Dict) (st : PosState) (l : POSLine) :
    (posStep true pl st l).discount_denom = st.discount_denom + lineDenom pl l := by
  unfold posStep lineDenom
  cases dlookup pl l.item_name <;> simp

theorem posStep_numer_true (pl : Dict) (st : PosState) (l : POSLine) :
    (posStep true pl st l).discount_numer = st.discount_numer + lineNumer pl l := by
  unfold posStep lineNumer
  cases h : dlookup pl l.item_name with
  | none => simp
  | some theo =>
      by_cases hlt : l.total_price / (l.quantity : ℚ) < theo <;> simp [hlt]

theorem posStep_denom_false (pl : Dict) (st : PosState) (l : POSLine) :
    (posStep false pl st l).discount_denom = st.discount_denom := rfl

theorem posStep_numer_false (pl : Dict) (st : PosState) (l : POSLine) :
    (posStep false pl st l).discount_numer = st.discount_numer := rfl

theorem fold_rev_total (hp : Bool) (pl : Dict) (pos : List POSLine) (st : PosState) :
    (pos.foldl (posStep hp pl) st).rev_total
      = st.rev_total + (pos.map POSLine.total_price).sum := by
  induction pos generalizing st with
  | nil => simp
  | cons l pos ih =>
      simp only [List.foldl_cons, List.map_cons, List.sum_cons, ih, posStep_rev_total]
      ring

theorem fold_by_area (hp : Bool) (pl : Dict) (pos : List POSLine) (st : PosState) :
    (pos.foldl (posStep hp pl) st).by_area
      = pos.foldl (fun acc l => dadd acc l.area l.total_price) st.by_area := by
  induction pos generalizing st with
  | nil => rfl
  | cons l pos ih => simp only [List.foldl_cons, ih, posStep_by_area]

theorem fold_by_payment (hp : Bool) (pl : Dict) (pos : List POSLine) (st : PosState) :
    (pos.foldl (posStep hp pl) st).by_payment
      = pos.foldl (fun acc l => dadd acc l.payment_method l.total_price) st.by_payment := by
  induction pos generalizing st with
  | nil => rfl
  | cons l pos ih => simp only [List.foldl_cons, ih, posStep_by_payment]

theorem fold_receipts (hp : Bool) (pl : Dict) (pos : List POSLine) (st : PosState) :
    (pos.foldl (posStep hp pl) st).receipts
      = pos.foldl (fun acc l => sinsert acc l.receipt_id) st.receipts := by
  induction pos generalizing st with
  | nil => rfl
  | cons l pos ih => simp only [List.foldl_cons, ih, posStep_receipts]

theorem fold_denom_true (pl : Dict) (pos : List POSLine) (st : PosState) :
    (pos.foldl (posStep true pl) st).discount_denom
      = st.discount_denom + (pos.map (lineDenom pl)).sum := by
  induction pos generalizing st with
  | nil => simp
  | cons l pos ih =>
      simp only [List.foldl_cons, List.map_cons, List.sum_cons, ih, posStep_denom_true]
      ring

theorem fold_numer_true (pl : Dict) (pos : List POSLine) (st : PosState) :
    (pos.foldl (posStep true pl) st).discount_numer
      = st.discount_numer + (pos.map (lineNumer pl)).sum := by
  induction pos generalizing st with
  | nil => simp
  | cons l pos ih =>
      simp only [List.foldl_cons, List.map_cons, List.sum_cons, ih, posStep_numer_true]
      ring

theorem fold_denom_false (pl : Dict) (pos : List POSLine) (st : PosState) :
    (pos.foldl (posStep false pl) st).discount_denom = st.discount_denom := by
  induction pos generalizing st with
  | nil => rfl
  | cons l pos ih => simp only [List.foldl_cons, ih, posStep_denom_false]

theorem fold_numer_false (pl : Dict) (pos : List POSLine) (st : PosState) :
    (pos.foldl (posStep false pl) st).discount_numer = st.discount_numer := by
  induction pos generalizing st with
  | nil => rfl
  | cons l pos ih => simp only [List.foldl_cons, ih, posStep_numer_false]

/-! ## Characterizing the receipt set -/

theorem mem_sinsert (s : List String) (r x : String) :
    x ∈ sinsert s r ↔ x ∈ s ∨ x = r := by
  unfold sinsert
  by_cases h : r ∈ s
  · simp [h]; intro hx; subst hx; tauto
  · simp [h]; tauto

theorem nodup_sinsert (s : List String) (r : String) (h : s.Nodup) :
    (sinsert s r).Nodup := by
  unfold sinsert
  by_cases hr : r ∈ s <;> simp [hr, h]

theorem fold_sinsert_mem (xs : List String) (s : List String) (x : String) :
    x ∈ xs.foldl sinsert s ↔ x ∈ s ∨ x ∈ xs := by
  induction xs generalizing s with
  | nil => simp
  | cons y ys ih =>
      simp only [List.foldl_cons, ih, mem_sinsert, List.mem_cons]
      tauto

theorem fold_sinsert_nodup (xs : List String) (s : List String) (h : s.Nodup) :
    (xs.foldl sinsert s).Nodup := by
  induction xs generalizing s with
  | nil => exact h
  | cons y ys ih => exact ih _ (nodup_sinsert _ _ h)

/-- The number of receipts collected by the loop is the number of distinct
receipt ids in the input. -/
theorem fold_sinsert_length (xs : List String) :
    (xs.foldl sinsert []).length = xs.dedup.length := by
  have hnd : (xs.foldl sinsert []).Nodup := fold_sinsert_nodup xs [] List.nodup_nil
  have hmem : ∀ x, x ∈ xs.foldl sinsert [] ↔ x ∈ xs.dedup := by
    intro x
    rw [fold_sinsert_mem, List.mem_dedup]
    simp
  exact List.Perm.length_eq
    ((List.perm_ext_iff_of_nodup hnd xs.nodup_dedup).mpr hmem)

theorem dlookup_eq_dite (d : Dict) (a : String) :
    dlookup d a = if dmem d a then some (dget d a) else none := by
  cases h : dlookup d a with
  | none =>
      rw [dlookup_eq_none_iff] at h
      simp [h]
  | some v =>
      have hm : dmem d a := by
        by_contra hm
        rw [← dlookup_eq_none_iff] at hm
        rw [h] at hm
        cases hm
      simp [hm, dget, h]

/-! ## Closed forms for the outputs of `kpi_pos_only` -/

/-- The accumulated discount denominator, including the `has_prices` gate. -/
def discountDenom (pos : List POSLine) (price_list : Option Dict) : ℚ :=
  if hasPrices price_list then (pos.map (lineDenom (price_list.getD []))).sum else 0

/-- The accumulated discount numerator, including the `has_prices` gate. -/
def discountNumer (pos : List POSLine) (price_list : Option Dict) : ℚ :=
  if hasPrices price_list then (pos.map (lineNumer (price_list.getD []))).sum else 0

theorem init_by_area : PosState.init.by_area = [] := rfl

theorem init_by_payment : PosState.init.by_payment = [] := rfl

theorem kpi_revenue_total (pos : List POSLine) (pl : Option Dict) :
    (kpi_pos_only pos pl).revenue_total = q2 ((pos.map POSLine.total_price).sum) := by
  unfold kpi_pos_only
  simp [fold_rev_total, PosState.init]

theorem kpi_by_area_lookup (pos : List POSLine) (pl : Option Dict) (a : String) :
    dlookup (kpi_pos_only pos pl).revenue_by_area a
      = if a ∈ pos.map POSLine.area then
          some (q2 (((pos.filter (fun l => l.area = a)).map POSLine.total_price).sum))
        else none := by
  unfold kpi_pos_only
  simp only [dlookup_map, fold_by_area, init_by_area]
  rw [dlookup_eq_dite]
  simp only [foldl_dadd_dmem POSLine.area POSLine.total_price,
    foldl_dadd_dget POSLine.area POSLine.total_price]
  by_cases h : a ∈ pos.map POSLine.area <;>
    simp [h, dmem, dget, dlookup]

theorem kpi_by_payment_lookup (pos : List POSLine) (pl : Option Dict) (a : String) :
    dlookup (kpi_pos_only pos pl).revenue_by_payment a
      = if a ∈ pos.map POSLine.payment_method then
          some (q2 (((pos.filter (fun l => l.payment_method = a)).map POSLine.total_price).sum))
        else none := by
  unfold kpi_pos_only
  simp only [dlookup_map, fold_by_payment, init_by_payment]
  rw [dlookup_eq_dite]
  simp only [foldl_dadd_dmem POSLine.payment_method POSLine.total_price,
    foldl_dadd_dget POSLine.payment_method POSLine.total_price]
  by_cases h : a ∈ pos.map POSLine.payment_method <;>
    simp [h, dmem, dget, dlookup]

theorem kpi_receipt_count (pos : List POSLine) (pl : Option Dict) :
    (kpi_pos_only pos pl).receipt_count = (pos.map POSLine.receipt_id).dedup.length := by
  unfold kpi_pos_only
  simp only [fold_receipts, PosState.init]
  rw [← List.foldl_map (f := POSLine.receipt_id) (g := sinsert)]
  exact fold_sinsert_length _

theorem kpi_average_receipt (pos : List POSLine) (pl : Option Dict) :
    (kpi_pos_only pos pl).average_receipt
      = q2 ((pos.map POSLine.total_price).sum
          / (max ((pos.map POSLine.receipt_id).dedup.length) 1 : ℚ)) := by
  unfold kpi_pos_only
  simp only [fold_rev_total, fold_receipts, PosState.init]
  rw [← List.foldl_map (f := POSLine.receipt_id) (g := sinsert)]
  rw [fold_sinsert_length]
  norm_num

theorem kpi_discount_rate (pos : List POSLine) (pl : Option Dict) :
    (kpi_pos_only pos pl).discount_rate
      = if 0 < discountDenom pos pl then
          some (q4 (discountNumer pos pl / discountDenom pos pl))
        else none := by
  unfold kpi_pos_only discountDenom discountNumer
  cases hp : hasPrices pl with
  | false => simp [fold_denom_false, fold_numer_false, PosState.init]
  | true => simp [fold_denom_true, fold_numer_true, PosState.init]

/-! ## Characterizing `_normalized_weights` and `compute_cogs` -/

theorem sum_map_div (l : List ℚ) (c : ℚ) : (l.map (fun x => x / c)).sum = l.sum / c := by
  induction l with
  | nil => simp
  | cons x xs ih => simp [ih, add_div]

theorem sum_map_mul_left (l : List ℚ) (c : ℚ) :
    (l.map (fun x => c * x)).sum = c * l.sum := by
  induction l with
  | nil => simp
  | cons x xs ih => simp [ih, mul_add]

/-- Function `_normalized_weights` raises exactly when no entry is strictly positive. -/
theorem normalized_weights_error_iff (b : Dict) :
    (∃ e, normalized_weights b = Except.error e) ↔ ¬ ∃ kv ∈ b, 0 < kv.2 := by
  unfold normalized_weights
  by_cases h : vsum (b.filter (fun kv => 0 < kv.2)) ≤ 0
  · simp only [h, if_pos]
    constructor
    · intro _ hex
      obtain ⟨kv, hkv, hpos⟩ := hex
      have hmem : kv ∈ b.filter (fun kv => 0 < kv.2) := by
        simp [List.mem_filter, hkv, hpos]
      have hall : ∀ x ∈ (b.filter (fun kv => 0 < kv.2)).map Prod.snd, 0 < x := by
        intro x hx
        obtain ⟨kv', hkv', hx'⟩ := List.mem_map.mp hx
        have := (List.mem_filter.mp hkv').2
        simp at this
        subst hx'
        exact this
      have hne : (b.filter (fun kv => 0 < kv.2)).map Prod.snd ≠ [] := by
        intro hnil
        have := List.mem_map_of_mem Prod.snd hmem
        simp [hnil] at this
      have := List.sum_pos _ hall hne
      exact absurd this (not_lt.mpr h)
    · intro _
      exact ⟨_, rfl⟩
  · simp only [h, if_neg, not_false_iff]
    constructor
    · rintro ⟨e, he⟩
      cases he
    · intro hex
      exfalso
      apply h
      by_contra hlt
      push_neg at hlt
      apply hex
      have : (b.filter (fun kv => 0 < kv.2)) ≠ [] := by
        intro hnil
        rw [hnil] at hlt
        simp [vsum] at hlt
      obtain ⟨kv, hkv⟩ := List.exists_mem_of_ne_nil _ this
      exact ⟨kv, (List.mem_filter.mp hkv).1, by
        have := (List.mem_filter.mp hkv).2
        simpa using this⟩

/-- On success, `_normalized_weights` returns exactly the strictly positive
entries, each divided by their sum. -/
theorem normalized_weights_ok_eq {b ws : Dict}
    (h : normalized_weights b = Except.ok ws) :
    ws = (b.filter (fun kv => 0 < kv.2)).map
      (fun kv => (kv.1, kv.2 / vsum (b.filter (fun kv => 0 < kv.2)))) := by
  unfold normalized_weights at h
  by_cases htot : vsum (b.filter (fun kv => 0 < kv.2)) ≤ 0
  · simp [htot] at h
  · simp [htot] at h
    exact h.symm

/-- On success, the total of `_normalized_weights` is positive. -/
theorem normalized_weights_ok_total_pos {b ws : Dict}
    (h : normalized_weights b = Except.ok ws) :
    0 < vsum (b.filter (fun kv => 0 < kv.2)) := by
  unfold normalized_weights at h
  by_cases htot : vsum (b.filter (fun kv => 0 < kv.2)) ≤ 0
  · simp [htot] at h
  · exact lt_of_not_le htot

/-- On success, the returned weights sum to `1`. -/
theorem normalized_weights_ok_sum {b ws : Dict}
    (h : normalized_weights b = Except.ok ws) : vsum ws = 1 := by
  have htot := normalized_weights_ok_total_pos h
  rw [normalized_weights_ok_eq h]
  generalize hT : vsum (b.filter (fun kv => 0 < kv.2)) = T at htot ⊢
  have hstep : vsum ((b.filter (fun kv => 0 < kv.2)).map fun kv => (kv.1, kv.2 / T))
      = (((b.filter (fun kv => 0 < kv.2)).map Prod.snd).map (fun x => x / T)).sum := by
    unfold vsum
    rw [List.map_map, List.map_map]
    rfl
  unfold vsum at hT
  rw [hstep, sum_map_div, hT]
  exact div_self (ne_of_gt htot)

/-- The undirected pool accumulated by the `compute_cogs` loop. -/
theorem cogs_fold_snd (purch : List PurchaseInvoice) (acc : Dict × ℚ) :
    (purch.foldl
      (fun acc p =>
        match p.area with
        | some a => (dadd acc.1 a p.amount, acc.2)
        | none => (acc.1, acc.2 + p.amount)) acc).2
      = acc.2 + ((purch.filter (fun p => p.area = none)).map PurchaseInvoice.amount).sum := by
  induction purch generalizing acc with
  | nil => simp
  | cons p ps ih =>
      cases hp : p.area with
      | some a => simp [List.foldl_cons, hp, ih, List.filter_cons]
      | none =>
          simp [List.foldl_cons, hp, ih, List.filter_cons]
          ring

/-- The per-area bucket accumulated by the `compute_cogs` loop. -/
theorem cogs_fold_dget (purch : List PurchaseInvoice) (acc : Dict × ℚ) (a : String) :
    dget (purch.foldl
      (fun acc p =>
        match p.area with
        | some a => (dadd acc.1 a p.amount, acc.2)
        | none => (acc.1, acc.2 + p.amount)) acc).1 a
      = dget acc.1 a
        + ((purch.filter (fun p => p.area = some a)).map PurchaseInvoice.amount).sum := by
  induction purch generalizing acc with
  | nil => simp
  | cons p ps ih =>
      cases hp : p.area with
      | some b =>
          simp only [List.foldl_cons, hp, ih, dget_dadd, List.filter_cons]
          by_cases hb : b = a
          · simp [hp, hb]
            ring
          · have : ¬ p.area = some a := by simp [hp, hb]
            simp [hp, hb, this]
      | none =>
          simp only [List.foldl_cons, hp, ih, List.filter_cons]
          simp [hp]

/-- The total of the tagged buckets accumulated by the `compute_cogs` loop. -/
theorem cogs_fold_vsum (purch : List PurchaseInvoice) (acc : Dict × ℚ) :
    vsum (purch.foldl
      (fun acc p =>
        match p.area with
        | some a => (dadd acc.1 a p.amount, acc.2)
        | none => (acc.1, acc.2 + p.amount)) acc).1
      = vsum acc.1
        + ((purch.filter (fun p => p.area ≠ none)).map PurchaseInvoice.amount).sum := by
  induction purch generalizing acc with
  | nil => simp
  | cons p ps ih =>
      cases hp : p.area with
      | some b =>
          simp only [List.foldl_cons, hp, ih, vsum_dadd, List.filter_cons]
          simp [hp]
          ring
      | none =>
          simp only [List.foldl_cons, hp, ih, List.filter_cons]
          simp [hp]

/-- With no allocation basis (or an empty one), `compute_cogs` never errors
and returns the tagged buckets unchanged. -/
theorem compute_cogs_no_basis (purch : List PurchaseInvoice) (ab : Option Dict)
    (h : allocTruthy ab = false) :
    compute_cogs purch ab = Except.ok (cogsFold purch).1 := by
  unfold compute_cogs
  simp [h]

/-! ## Bounds on half-up rounding -/

theorem rhu_nonneg {x : ℚ} (h : 0 ≤ x) : 0 ≤ rhu x := by
  unfold rhu
  rw [if_pos h]
  exact Int.le_floor.mpr (by push_cast; linarith)

theorem rhu_le_of_le {x : ℚ} {n : ℤ} (hn : 0 ≤ n) (h : x ≤ n) : rhu x ≤ n := by
  unfold rhu
  by_cases h0 : 0 ≤ x
  · rw [if_pos h0]
    have : ⌊x + 1/2⌋ < n + 1 := Int.floor_lt.mpr (by push_cast; linarith)
    omega
  · rw [if_neg h0]
    have hx : 0 ≤ -x := by linarith [lt_of_not_le h0]
    have : 0 ≤ ⌊-x + 1/2⌋ := Int.le_floor.mpr (by push_cast; linarith)
    omega

theorem quantize_nonneg (d : ℕ) {x : ℚ} (h : 0 ≤ x) : 0 ≤ quantize d x := by
  unfold quantize
  apply div_nonneg _ (by positivity)
  have : 0 ≤ rhu (x * 10 ^ d) := rhu_nonneg (by positivity)
  exact_mod_cast this

theorem quantize_le_one (d : ℕ) {x : ℚ} (h : x ≤ 1) : quantize d x ≤ 1 := by
  unfold quantize
  rw [div_le_one (by positivity)]
  have hpow : (0:ℚ) < 10 ^ d := by positivity
  have hx : x * 10 ^ d ≤ ((10 ^ d : ℤ) : ℚ) := by
    push_cast
    nlinarith
  have : rhu (x * 10 ^ d) ≤ (10 ^ d : ℤ) := rhu_le_of_le (by positivity) hx
  exact_mod_cast this

/-! ## Characterizing `gross_margin_by_area` -/

theorem dlookup_map_key (f : String → ℚ) (keys : List String) (a : String) :
    dlookup (keys.map fun k => (k, f k)) a = if a ∈ keys then some (f a) else none := by
  induction keys with
  | nil => simp [dlookup]
  | cons k ks ih =>
      by_cases h : k = a
      · subst h
        simp [dlookup]
      · have h' : ¬ a = k := fun hh => h hh.symm
        simp [dlookup, h, h', ih]

theorem gross_margin_dmem (rev cogs : Dict) (a : String) :
    dmem (gross_margin_by_area rev cogs) a ↔ dmem rev a ∨ dmem cogs a := by
  unfold gross_margin_by_area dmem
  rw [List.map_map]
  have : (Prod.fst ∘ fun a => (a, q2 (dget rev a - dget cogs a))) = id := rfl
  rw [this, List.map_id, List.mem_dedup, List.mem_append]

theorem gross_margin_dlookup (rev cogs : Dict) (a : String) :
    dlookup (gross_margin_by_area rev cogs) a
      = if dmem rev a ∨ dmem cogs a then some (q2 (dget rev a - dget cogs a))
        else none := by
  unfold gross_margin_by_area
  rw [dlookup_map_key]
  by_cases h : dmem rev a ∨ dmem cogs a
  · rw [if_pos h, if_pos]
    rw [List.mem_dedup, List.mem_append]
    exact h
  · rw [if_neg h, if_neg]
    rw [List.mem_dedup, List.mem_append]
    exact h

/-! ## Per-line bounds on the discount accumulators -/

theorem lineNumer_nonneg (pl : Dict) (l : POSLine) : 0 ≤ lineNumer pl l := by
  unfold lineNumer
  cases h : dlookup pl l.item_name with
  | none => simp
  | some theo =>
      by_cases hlt : l.total_price / (l.quantity : ℚ) < theo
      · simp only [hlt, if_true]
        have h1 : 0 ≤ theo - l.total_price / (l.quantity : ℚ) := by linarith
        exact mul_nonneg h1 (by positivity)
      · simp [hlt]

theorem lineNumer_le_lineDenom (pl : Dict) (l : POSLine)
    (htp : 0 ≤ l.total_price) (htheo : ∀ kv ∈ pl, 0 ≤ kv.2) :
    lineNumer pl l ≤ lineDenom pl l := by
  unfold lineNumer lineDenom
  cases h : dlookup pl l.item_name with
  | none => simp
  | some theo =>
      have hth : 0 ≤ theo := htheo (l.item_name, theo) (dlookup_mem h)
      by_cases hlt : l.total_price / (l.quantity : ℚ) < theo
      · simp only [hlt, if_true]
        have hact : 0 ≤ l.total_price / (l.quantity : ℚ) := div_nonneg htp (by positivity)
        exact mul_le_mul_of_nonneg_right (by linarith) (by positivity)
      · simp only [hlt, if_false]
        exact mul_nonneg hth (by positivity)

theorem discountNumer_nonneg (pos : List POSLine) (pl : Option Dict) :
    0 ≤ discountNumer pos pl := by
  unfold discountNumer
  cases hp : hasPrices pl
  · simp
  · simp only [if_true]
    apply List.sum_nonneg
    intro x hx
    obtain ⟨l, _, rfl⟩ := List.mem_map.mp hx
    exact lineNumer_nonneg _ l

theorem discountNumer_le_denom (pos : List POSLine) (pl : Option Dict)
    (hval : ∀ l ∈ pos, l.valid)
    (hpl : ∀ b, pl = some b → ∀ kv ∈ b, 0 ≤ kv.2) :
    discountNumer pos pl ≤ discountDenom pos pl := by
  unfold discountNumer discountDenom
  cases hp : hasPrices pl
  · simp
  · simp only [if_true]
    cases pl with
    | none => simp [hasPrices] at hp
    | some b =>
        simp only [Option.getD_some]
        apply List.sum_le_sum
        intro l hl
        exact lineNumer_le_lineDenom b l (hval l hl).2.2 (hpl b rfl)

/-! ## Claims -/

/-- C1: the `discount_rate` of `kpi_pos_only` is absent (`none`) — not
zero — when no price list is given or when the accumulated denominator is not
positive; otherwise it equals numerator / denominator rounded half-up to 4
fractional digits, where each matched line contributes `theo * quantity` to
the denominator unconditionally and `(theo − total_price/quantity) * quantity`
to the numerator only when `theo` exceeds the actual unit price; whenever
present, the rate lies in `[0, 1]`. -/
theorem claim_C1 (pos : List POSLine) (pl : Option Dict)
    (hval : ∀ l ∈ pos, l.valid)
    (hpl : ∀ b, pl = some b → ∀ kv ∈ b, 0 ≤ kv.2) :
    ((kpi_pos_only pos pl).discount_rate = none ↔ discountDenom pos pl ≤ 0) ∧
    (pl = none → (kpi_pos_only pos pl).discount_rate = none) ∧
    (0 < discountDenom pos pl →
      (kpi_pos_only pos pl).discount_rate
        = some (q4 (discountNumer pos pl / discountDenom pos pl))) ∧
    (∀ x, (kpi_pos_only pos pl).discount_rate = some x → 0 ≤ x ∧ x ≤ 1) := by
  have hrate := kpi_discount_rate pos pl
  refine ⟨?_, ?_, ?_, ?_⟩
  · rw [hrate]
    by_cases h : 0 < discountDenom pos pl
    · simp [h, not_le.mpr h]
    · simp [h, not_lt.mp h]
  · intro hnone
    subst hnone
    rw [hrate]
    simp [discountDenom, hasPrices]
  · intro h
    rw [hrate, if_pos h]
  · intro x hx
    rw [hrate] at hx
    by_cases h : 0 < discountDenom pos pl
    · rw [if_pos h] at hx
      have hxq := Option.some.inj hx
      subst hxq
      have h0 : 0 ≤ discountNumer pos pl / discountDenom pos pl :=
        div_nonneg (discountNumer_nonneg pos pl) h.le
      have h1 : discountNumer pos pl / discountDenom pos pl ≤ 1 :=
        (div_le_one h).mpr (discountNumer_le_denom pos pl hval hpl)
      exact ⟨quantize_nonneg 4 h0, quantize_le_one 4 h1⟩
    · rw [if_neg h] at hx
      cases hx

/-- Witness for C1: one line of 2 beers sold at total 6 against a
theoretical price of 5 gives denominator 10, numerator 4 and discount rate
0.4, which lies in `[0, 1]`. -/
theorem claim_C1_witness :
    (∀ l ∈ [(⟨"FOOD", "beer", 2, 3, 6, "CASH", "Bar", "R1"⟩ : POSLine)], l.valid) ∧
    ((kpi_pos_only [⟨"FOOD", "beer", 2, 3, 6, "CASH", "Bar", "R1"⟩]
        (some [("beer", 5)])).discount_rate = some (2/5)) ∧
    (0 ≤ (2:ℚ)/5 ∧ (2:ℚ)/5 ≤ 1) := by
  have hval : ∀ l ∈ [(⟨"FOOD", "beer", 2, 3, 6, "CASH", "Bar", "R1"⟩ : POSLine)], l.valid := by
    intro l hl
    simp only [List.mem_singleton] at hl
    subst hl
    exact ⟨by norm_num, by norm_num, by norm_num⟩
  have hpl : ∀ b, (some [("beer", (5:ℚ))] : Option Dict) = some b → ∀ kv ∈ b, 0 ≤ kv.2 := by
    rintro b hb
    cases hb
    rintro kv hkv
    simp at hkv
    subst hkv
    norm_num
  have h := claim_C1 [⟨"FOOD", "beer", 2, 3, 6, "CASH", "Bar", "R1"⟩]
    (some [("beer", 5)]) hval hpl
  have hD : (0:ℚ) < discountDenom [⟨"FOOD", "beer", 2, 3, 6, "CASH", "Bar", "R1"⟩]
      (some [("beer", 5)]) := by
    norm_num [discountDenom, hasPrices, lineDenom, dlookup]
  have hr := h.2.2.1 hD
  refine ⟨hval, ?_, by norm_num, by norm_num⟩
  rw [hr]
  norm_num [discountNumer, discountDenom, hasPrices, lineNumer, lineDenom, dlookup,
    q4, quantize, rhu]

/-- C5: `_normalized_weights` raises a configuration error (and returns no
mapping) exactly when its input mapping is empty or contains no strictly
positive weight; otherwise it returns the strictly positive entries each
divided by their sum, and the returned weights sum to 1. -/
theorem claim_C5 (b : Dict) :
    ((∃ e, normalized_weights b = Except.error e) ↔
      (b = [] ∨ ∀ kv ∈ b, kv.2 ≤ 0)) ∧
    (∀ ws, normalized_weights b = Except.ok ws →
      ws = (b.filter (fun kv => 0 < kv.2)).map
          (fun kv => (kv.1, kv.2 / vsum (b.filter (fun kv => 0 < kv.2)))) ∧
        vsum ws = 1) := by
  constructor
  · rw [normalized_weights_error_iff]
    constructor
    · intro h
      by_cases hb : b = []
      · exact Or.inl hb
      · right
        intro kv hkv
        by_contra hpos
        push_neg at hpos
        exact h ⟨kv, hkv, hpos⟩
    · rintro (rfl | hall)
      · rintro ⟨kv, hkv, _⟩
        simp at hkv
      · rintro ⟨kv, hkv, hpos⟩
        exact absurd hpos (not_lt.mpr (hall kv hkv))
  · intro ws hws
    exact ⟨normalized_weights_ok_eq hws, normalized_weights_ok_sum hws⟩

/-- Witness for C5 at the basis `{Restaurant: 1, Bar: 1}`: success with
weights `1/2` and `1/2`, summing to 1. -/
theorem claim_C5_witness :
    (normalized_weights [("Restaurant", (1:ℚ)), ("Bar", 1)]
      = Except.ok [("Restaurant", 1/2), ("Bar", 1/2)]) ∧
    vsum [("Restaurant", (1:ℚ)/2), ("Bar", 1/2)] = 1 := by
  have hok : normalized_weights [("Restaurant", (1:ℚ)), ("Bar", 1)]
      = Except.ok [("Restaurant", 1/2), ("Bar", 1/2)] := by
    norm_num [normalized_weights, vsum]
  exact ⟨hok, ((claim_C5 [("Restaurant", 1), ("Bar", 1)]).2 _ hok).2⟩

/-- C6: with no allocation basis supplied, `compute_cogs` returns exactly the
per-area sums of the area-tagged invoice amounts; the undirected total is
dropped, so the buckets total the tagged amounts only. -/
theorem claim_C6 (purch : List PurchaseInvoice) :
    ∃ d, compute_cogs purch none = Except.ok d ∧
      (∀ a, dget d a
          = ((purch.filter (fun p => p.area = some a)).map PurchaseInvoice.amount).sum) ∧
      vsum d = ((purch.filter (fun p => p.area ≠ none)).map PurchaseInvoice.amount).sum := by
  refine ⟨(cogsFold purch).1, compute_cogs_no_basis purch none rfl, ?_, ?_⟩
  · intro a
    have h := cogs_fold_dget purch ([], 0) a
    unfold cogsFold
    simpa [dget, dlookup] using h
  · have h := cogs_fold_vsum purch ([], 0)
    unfold cogsFold
    simpa [vsum] using h

/-- C7: `gross_margin_by_area` returns a mapping whose key set is exactly the
union of the two input key sets, each area mapped to `q2 (revenue − COGS)`
with a missing side read as 0; revenue 100 and COGS 40 yield 60, and an area
present only in COGS yields minus that COGS. -/
theorem claim_C7 (rev cogs : Dict) :
    (∀ a, dmem (gross_margin_by_area rev cogs) a ↔ dmem rev a ∨ dmem cogs a) ∧
    (∀ a, dlookup (gross_margin_by_area rev cogs) a
        = if dmem rev a ∨ dmem cogs a then some (q2 (dget rev a - dget cogs a))
          else none) ∧
    gross_margin_by_area [("Bar", 100)] [("Bar", 40)] = [("Bar", 60)] ∧
    gross_margin_by_area [] [("Bar", 40)] = [("Bar", -40)] := by
  refine ⟨gross_margin_dmem rev cogs, gross_margin_dlookup rev cogs, ?_, ?_⟩
  · norm_num [gross_margin_by_area, dget, dlookup, q2, quantize, rhu]
  · norm_num [gross_margin_by_area, dget, dlookup, q2, quantize, rhu]

/-- C8: `roi_monthly`, `inventory_turnover` and `inventory_coverage_days`
return `none` — never zero and never an exception — exactly when their
denominator is ≤ 0; otherwise the quotient rounded half-up to 4, 4 and 1
fractional digits respectively. -/
theorem claim_C8 (num den : ℚ) :
    (roi_monthly num den = none ↔ den ≤ 0) ∧
    (inventory_turnover num den = none ↔ den ≤ 0) ∧
    (inventory_coverage_days num den = none ↔ den ≤ 0) ∧
    (0 < den → roi_monthly num den = some (q4 (num / den))) ∧
    (0 < den → inventory_turnover num den = some (q4 (num / den))) ∧
    (0 < den → inventory_coverage_days num den = some (quantize 1 (num / den))) := by
  unfold roi_monthly inventory_turnover inventory_coverage_days
  by_cases h : 0 < den
  · have hne : ¬ den ≤ 0 := not_le.mpr h
    simp [h, hne]
  · have hle : den ≤ 0 := not_lt.mp h
    simp [h, hle]

/-- Witness for C8 at numerator 10 and denominator 4: all three ratios are
present and equal 2.5. -/
theorem claim_C8_witness :
    0 < (4:ℚ) ∧ roi_monthly 10 4 = some (5/2) ∧ inventory_turnover 10 4 = some (5/2)
      ∧ inventory_coverage_days 10 4 = some (5/2) := by
  refine ⟨by norm_num, ?_, ?_, ?_⟩
  · rw [(claim_C8 10 4).2.2.2.1 (by norm_num)]
    norm_num [q4, quantize, rhu]
  · rw [(claim_C8 10 4).2.2.2.2.1 (by norm_num)]
    norm_num [q4, quantize, rhu]
  · rw [(claim_C8 10 4).2.2.2.2.2 (by norm_num)]
    norm_num [quantize, rhu]

/-- C9: `add_sales_invoices` returns a mapping in which each area's value is
the original value (zero if absent) plus the sum of the invoice amounts for
that area; the key set is the union of the original keys and the invoice
areas, and the original mapping is not mutated (the source copies it; the
model is pure, and folding no invoices returns the mapping unchanged). -/
theorem claim_C9 (rev : Dict) (inv : List SalesInvoice) :
    (∀ a, dget (add_sales_invoices rev inv) a
        = dget rev a + ((inv.filter (fun si => si.area = a)).map SalesInvoice.amount).sum) ∧
    (∀ a, dmem (add_sales_invoices rev inv) a ↔ dmem rev a ∨ a ∈ inv.map SalesInvoice.area) ∧
    add_sales_invoices rev [] = rev := by
  refine ⟨?_, ?_, rfl⟩
  · intro a
    exact foldl_dadd_dget SalesInvoice.area SalesInvoice.amount inv rev a
  · intro a
    exact foldl_dadd_dmem SalesInvoice.area SalesInvoice.amount inv rev a

/-- C10: an empty mapping behaves exactly like `None` at both optional
entry points: `kpi_pos_only` with an empty price list equals the call with no
price list and has an absent discount rate, and `compute_cogs` with an empty
basis equals the call with no basis and raises no configuration error. -/
theorem claim_C10 (pos : List POSLine) (purch : List PurchaseInvoice) :
    kpi_pos_only pos (some []) = kpi_pos_only pos none ∧
    (kpi_pos_only pos (some [])).discount_rate = none ∧
    compute_cogs purch (some []) = compute_cogs purch none ∧
    (∃ d, compute_cogs purch (some []) = Except.ok d) := by
  refine ⟨rfl, ?_, ?_, ?_⟩
  · rw [kpi_discount_rate]
    simp [discountDenom, hasPrices]
  · rw [compute_cogs_no_basis purch (some []) rfl, compute_cogs_no_basis purch none rfl]
  · exact ⟨_, compute_cogs_no_basis purch (some []) rfl⟩

/-- C3: `revenue_total` equals the half-up-2-digit rounding of the sum of
`total_price` over all lines, and `revenue_total`, `revenue_by_area` and
`revenue_by_payment` are unchanged under any permutation of the input list. -/
theorem claim_C3 (pos pos' : List POSLine) (pl : Option Dict) (hperm : pos.Perm pos') :
    ((kpi_pos_only pos pl).revenue_total = q2 ((pos.map POSLine.total_price).sum)) ∧
    ((kpi_pos_only pos' pl).revenue_total = (kpi_pos_only pos pl).revenue_total) ∧
    (∀ a, dlookup (kpi_pos_only pos' pl).revenue_by_area a
        = dlookup (kpi_pos_only pos pl).revenue_by_area a) ∧
    (∀ a, dlookup (kpi_pos_only pos' pl).revenue_by_payment a
        = dlookup (kpi_pos_only pos pl).revenue_by_payment a) := by
  refine ⟨kpi_revenue_total pos pl, ?_, ?_, ?_⟩
  · rw [kpi_revenue_total, kpi_revenue_total, (hperm.map POSLine.total_price).sum_eq]
  · intro a
    rw [kpi_by_area_lookup, kpi_by_area_lookup]
    have hmem : a ∈ pos.map POSLine.area ↔ a ∈ pos'.map POSLine.area :=
      (hperm.map POSLine.area).mem_iff
    have hsum : ((pos.filter (fun l => l.area = a)).map POSLine.total_price).sum
        = ((pos'.filter (fun l => l.area = a)).map POSLine.total_price).sum :=
      ((hperm.filter _).map POSLine.total_price).sum_eq
    by_cases h : a ∈ pos.map POSLine.area
    · rw [if_pos (hmem.mp h), if_pos h, hsum]
    · rw [if_neg (fun hc => h (hmem.mpr hc)), if_neg h]
  · intro a
    rw [kpi_by_payment_lookup, kpi_by_payment_lookup]
    have hmem : a ∈ pos.map POSLine.payment_method ↔ a ∈ pos'.map POSLine.payment_method :=
      (hperm.map POSLine.payment_method).mem_iff
    have hsum : ((pos.filter (fun l => l.payment_method = a)).map POSLine.total_price).sum
        = ((pos'.filter (fun l => l.payment_method = a)).map POSLine.total_price).sum :=
      ((hperm.filter _).map POSLine.total_price).sum_eq
    by_cases h : a ∈ pos.map POSLine.payment_method
    · rw [if_pos (hmem.mp h), if_pos h, hsum]
    · rw [if_neg (fun hc => h (hmem.mpr hc)), if_neg h]

/-- Witness for C3: swapping the first two of the three example lines leaves
`revenue_total` unchanged (45.00 in both orders). -/
theorem claim_C3_witness :
    (([⟨"FOOD", "a", 1, 10, 10, "CASH", "Bar", "R1"⟩,
       ⟨"FOOD", "b", 1, 15, 15, "CARD", "Bar", "R1"⟩,
       ⟨"FOOD", "c", 1, 20, 20, "CARD", "Restaurant", "R2"⟩] : List POSLine).Perm
      [⟨"FOOD", "b", 1, 15, 15, "CARD", "Bar", "R1"⟩,
       ⟨"FOOD", "a", 1, 10, 10, "CASH", "Bar", "R1"⟩,
       ⟨"FOOD", "c", 1, 20, 20, "CARD", "Restaurant", "R2"⟩]) ∧
    (kpi_pos_only
      [⟨"FOOD", "b", 1, 15, 15, "CARD", "Bar", "R1"⟩,
       ⟨"FOOD", "a", 1, 10, 10, "CASH", "Bar", "R1"⟩,
       ⟨"FOOD", "c", 1, 20, 20, "CARD", "Restaurant", "R2"⟩] none).revenue_total
      = (kpi_pos_only
      [⟨"FOOD", "a", 1, 10, 10, "CASH", "Bar", "R1"⟩,
       ⟨"FOOD", "b", 1, 15, 15, "CARD", "Bar", "R1"⟩,
       ⟨"FOOD", "c", 1, 20, 20, "CARD", "Restaurant", "R2"⟩] none).revenue_total := by
  have hperm :
      ([⟨"FOOD", "a", 1, 10, 10, "CASH", "Bar", "R1"⟩,
        ⟨"FOOD", "b", 1, 15, 15, "CARD", "Bar", "R1"⟩,
        ⟨"FOOD", "c", 1, 20, 20, "CARD", "Restaurant", "R2"⟩] : List POSLine).Perm
        [⟨"FOOD", "b", 1, 15, 15, "CARD", "Bar", "R1"⟩,
         ⟨"FOOD", "a", 1, 10, 10, "CASH", "Bar", "R1"⟩,
         ⟨"FOOD", "c", 1, 20, 20, "CARD", "Restaurant", "R2"⟩] :=
    List.Perm.swap _ _ _
  exact ⟨hperm, (claim_C3 _ _ none hperm).2.1⟩

/-- Counterexample for C4 as stated: with lines totalling 0.005 and 0 on two
distinct receipts, the code computes `average_receipt` from the un-rounded
revenue sum (`q2 (0.005 / 2) = 0.00`), while dividing the returned (rounded)
`revenue_total` gives `q2 (0.01 / 2) = 0.01`. -/
theorem claim_C4_counterexample :
    (kpi_pos_only
      [⟨"FOOD", "a", 1, 1/200, 1/200, "CASH", "Bar", "R1"⟩,
       ⟨"FOOD", "b", 1, 0, 0, "CASH", "Bar", "R2"⟩] none).average_receipt
      ≠ q2 ((kpi_pos_only
          [⟨"FOOD", "a", 1, 1/200, 1/200, "CASH", "Bar", "R1"⟩,
           ⟨"FOOD", "b", 1, 0, 0, "CASH", "Bar", "R2"⟩] none).revenue_total
        / (max (kpi_pos_only
          [⟨"FOOD", "a", 1, 1/200, 1/200, "CASH", "Bar", "R1"⟩,
           ⟨"FOOD", "b", 1, 0, 0, "CASH", "Bar", "R2"⟩] none).receipt_count 1 : ℚ)) := by
  have h1 : (kpi_pos_only
      [⟨"FOOD", "a", 1, 1/200, 1/200, "CASH", "Bar", "R1"⟩,
       ⟨"FOOD", "b", 1, 0, 0, "CASH", "Bar", "R2"⟩] none).average_receipt = 0 := by
    simp [kpi_pos_only, posStep, PosState.init, hasPrices, sinsert, dadd]
    norm_num [q2, quantize, rhu]
  have h2 : (kpi_pos_only
      [⟨"FOOD", "a", 1, 1/200, 1/200, "CASH", "Bar", "R1"⟩,
       ⟨"FOOD", "b", 1, 0, 0, "CASH", "Bar", "R2"⟩] none).revenue_total = 1/100 := by
    simp [kpi_pos_only, posStep, PosState.init, hasPrices, sinsert, dadd]
    norm_num [q2, quantize, rhu]
  have h3 : (kpi_pos_only
      [⟨"FOOD", "a", 1, 1/200, 1/200, "CASH", "Bar", "R1"⟩,
       ⟨"FOOD", "b", 1, 0, 0, "CASH", "Bar", "R2"⟩] none).receipt_count = 2 := by
    simp [kpi_pos_only, posStep, PosState.init, hasPrices, sinsert, dadd]
  rw [h1, h2, h3]
  norm_num [q2, quantize, rhu]

/-- C4 as amended: `receipt_count` is the number of distinct `receipt_id`
values; `average_receipt` equals the *un-rounded* revenue sum divided by
`max(receipt_count, 1)`, rounded half-up to 2 digits; with zero receipts
`average_receipt` equals `revenue_total`. -/
theorem claim_C4_amended (pos : List POSLine) (pl : Option Dict) :
    ((kpi_pos_only pos pl).receipt_count = (pos.map POSLine.receipt_id).dedup.length) ∧
    ((kpi_pos_only pos pl).average_receipt
      = q2 ((pos.map POSLine.total_price).sum
          / (max ((pos.map POSLine.receipt_id).dedup.length) 1 : ℚ))) ∧
    ((kpi_pos_only pos pl).receipt_count = 0 →
      (kpi_pos_only pos pl).average_receipt = (kpi_pos_only pos pl).revenue_total) := by
  refine ⟨kpi_receipt_count pos pl, kpi_average_receipt pos pl, ?_⟩
  intro h0
  rw [kpi_receipt_count] at h0
  rw [kpi_average_receipt, kpi_revenue_total, h0]
  norm_num

/-- Witness for C4 (amended): with no lines there are zero receipts and
`average_receipt` equals `revenue_total`. -/
theorem claim_C4_witness :
    ((kpi_pos_only ([] : List POSLine) none).receipt_count = 0) ∧
    ((kpi_pos_only ([] : List POSLine) none).average_receipt
      = (kpi_pos_only ([] : List POSLine) none).revenue_total) := by
  have h0 : (kpi_pos_only ([] : List POSLine) none).receipt_count = 0 := rfl
  exact ⟨h0, (claim_C4_amended [] none).2.2 h0⟩

/-- C2: for every undirected total `U` and weights produced by
`_normalized_weights`, the shares `compute_cogs` adds to the per-area buckets
(`U` times each normalized weight) sum exactly to `U`, with no precision loss
(`Decimal` arithmetic is modelled exactly); in particular the buckets
returned by `compute_cogs` total the tagged amounts plus the whole
undirected pool. -/
theorem claim_C2 (purch : List PurchaseInvoice) (b ws : Dict)
    (hw : normalized_weights b = Except.ok ws)
    (hU : 0 < (cogsFold purch).2) (hb : b ≠ []) :
    (∀ U : ℚ, (ws.map (fun kw => U * kw.2)).sum = U) ∧
    ∃ d, compute_cogs purch (some b) = Except.ok d ∧
      vsum d = vsum (cogsFold purch).1 + (cogsFold purch).2 := by
  have hsum1 : vsum ws = 1 := normalized_weights_ok_sum hw
  have hshare : ∀ U : ℚ, (ws.map (fun kw => U * kw.2)).sum = U := by
    intro U
    have hmap : (ws.map (fun kw => U * kw.2)).sum
        = ((ws.map Prod.snd).map (fun x => U * x)).sum := by
      rw [List.map_map]
      rfl
    rw [hmap, sum_map_mul_left]
    rw [show (ws.map Prod.snd).sum = vsum ws from rfl, hsum1, mul_one]
  refine ⟨hshare, ?_⟩
  have htruthy : allocTruthy (some b) = true := by
    cases b with
    | nil => exact absurd rfl hb
    | cons kv rest => rfl
  refine ⟨ws.foldl (fun d kw => dadd d kw.1 ((cogsFold purch).2 * kw.2)) (cogsFold purch).1,
    ?_, ?_⟩
  · unfold compute_cogs
    rw [if_pos ⟨hU, htruthy⟩]
    simp only [Option.getD_some]
    rw [hw]
  · rw [foldl_dadd_vsum Prod.fst (fun kw => (cogsFold purch).2 * kw.2) ws]
    rw [hshare]

/-- Witness for C2: one undirected invoice of 10 with basis
`{Restaurant: 1, Bar: 1}` — the shares `10 · 1/2 + 10 · 1/2` sum to 10 and
both buckets together hold exactly the pool. -/
theorem claim_C2_witness :
    (normalized_weights [("Restaurant", (1:ℚ)), ("Bar", 1)]
      = Except.ok [("Restaurant", 1/2), ("Bar", 1/2)]) ∧
    (0 : ℚ) < (cogsFold [⟨10, "FOOD", none⟩]).2 ∧
    (([("Restaurant", (1:ℚ)/2), ("Bar", 1/2)].map (fun kw => 10 * kw.2)).sum = 10) ∧
    (∃ d, compute_cogs [⟨10, "FOOD", none⟩] (some [("Restaurant", 1), ("Bar", 1)])
        = Except.ok d ∧
      vsum d = vsum (cogsFold [⟨10, "FOOD", none⟩]).1 + (cogsFold [⟨10, "FOOD", none⟩]).2) := by
  have hw : normalized_weights [("Restaurant", (1:ℚ)), ("Bar", 1)]
      = Except.ok [("Restaurant", 1/2), ("Bar", 1/2)] := by
    norm_num [normalized_weights, vsum]
  have hU : (0 : ℚ) < (cogsFold [(⟨10, "FOOD", none⟩ : PurchaseInvoice)]).2 := by
    norm_num [cogsFold]
  have h := claim_C2 [⟨10, "FOOD", none⟩] [("Restaurant", 1), ("Bar", 1)]
    [("Restaurant", 1/2), ("Bar", 1/2)] hw hU (by simp)
  exact ⟨hw, hU, h.1 10, h.2⟩

end Oreka
